import Mathlib

/-!
# Verification of `fast_fscanf_mem` (fscanfasta repository)

Shallow embedding of `src/fast_fscanf.cpp` over `List Char` buffers
with a `Nat` cursor position.  The memory scanner `MemScanner {ptr, end}`
is represented by the fixed buffer `buf : List Char` together with the
cursor `pos : Nat`; `ptr = buffer + pos`, `end = buffer + buf.length`
(the buffer view handed to the function is exactly the valid range, so
`size = buf.length`).

Loops over the buffer are written with an explicit fuel argument equal to
`buf.length - pos` at entry; every loop both advances the cursor by one per
iteration and requires `pos < buf.length` to iterate, so this fuel is never
the reason a loop stops: the fueled functions compute exactly what the C
loops compute, while staying structurally recursive (hence kernel-reducible).

Integer widths follow the LP64 model of the platform the code targets
(`short` = 16 bits, `int` = 32, `long` = 64, `unsigned long` = 64); casts on
narrowing are modelled as two's-complement wrapping.  Floating-point values
are not modelled numerically: a float conversion records the captured token,
and the success of `strtod`/`std::from_chars` on such a token is modelled by
the decidable predicate `strtodAccepts` (exact for the token alphabet
`+ - . e E 0-9` that `readFloatToken` can produce).
-/

set_option autoImplicit false

namespace FScanf

/-! ### C character classification (C locale, as used via `<cctype>`) -/

/-- `isspace((unsigned char)c)` in the C locale: space and `\t \n \v \f \r`. -/
def isspace (c : Char) : Bool := c.toNat = 32 || (9 ≤ c.toNat && c.toNat ≤ 13)

/-- `isdigit((unsigned char)c)`. -/
def isdigit (c : Char) : Bool := 48 ≤ c.toNat && c.toNat ≤ 57

/-- `isxdigit((unsigned char)c)`. -/
def isxdigit (c : Char) : Bool :=
  isdigit c || (97 ≤ c.toNat && c.toNat ≤ 102) || (65 ≤ c.toNat && c.toNat ≤ 70)

/-! ### MemScanner primitives (`ms_eof`, `ms_peek`, `ms_getc`, `ms_ungetc`,
`ms_skip_whitespace` from the source) -/

/-- `ms_eof`: true when we are out of data (`ptr >= end`). -/
def ms_eof (buf : List Char) (pos : Nat) : Bool := buf.length ≤ pos

/-- `ms_peek`: current character, `'\0'` at end of buffer. -/
def ms_peek (buf : List Char) (pos : Nat) : Char :=
  if ms_eof buf pos then Char.ofNat 0 else buf.getD pos (Char.ofNat 0)

/-- `ms_getc`: advance one char and return it, or `'\0'` without moving at EOF. -/
def ms_getc (buf : List Char) (pos : Nat) : Char × Nat :=
  if ms_eof buf pos then (Char.ofNat 0, pos) else (buf.getD pos (Char.ofNat 0), pos + 1)

/-- `ms_ungetc`: the source first clamps `ptr` to `end` when it is past it, then
decrements only when `ptr > end - (end - ptr)` (the source's literal pointer
arithmetic, reproduced here on `Nat`). -/
def ms_ungetc (buf : List Char) (pos : Nat) : Nat :=
  let p := if buf.length < pos then buf.length else pos
  if buf.length - (buf.length - p) < p then p - 1 else p

/-- Loop body of `ms_skip_whitespace`; fuel bounds the iteration count. -/
def skipWsAux (buf : List Char) : Nat → Nat → Nat
  | 0, pos => pos
  | fuel + 1, pos =>
    if !ms_eof buf pos && isspace (ms_peek buf pos) then skipWsAux buf fuel (pos + 1)
    else pos

/-- `ms_skip_whitespace`: advance over whitespace. -/
def ms_skip_whitespace (buf : List Char) (pos : Nat) : Nat :=
  skipWsAux buf (buf.length - pos) pos

/-! ### Token scanners -/

/-- `readChar` (`%c`): read exactly one char, even whitespace; fail only at EOF. -/
def readChar (buf : List Char) (pos : Nat) : Option Char × Nat :=
  if ms_eof buf pos then (none, pos)
  else ((ms_getc buf pos).1, (ms_getc buf pos).2) |> fun r => (some r.1, r.2)

/-- Store a character into a bounded token buffer: the source's
`if (pos < bufSize - 1) outBuf[pos++] = c;` (chars past the cap are consumed
from the input but not stored). -/
def pushTok (tok : List Char) (bufSize : Nat) (c : Char) : List Char :=
  if tok.length < bufSize - 1 then tok ++ [c] else tok

/-- Main loop of `readIntegerToken`: greedily consume digits of the base,
tracking `gotDigit`. -/
def intLoopAux (buf : List Char) (base bufSize : Nat) :
    Nat → Nat → List Char → Bool → Bool × Nat × List Char
  | 0, pos, tok, got => (got, pos, tok)
  | fuel + 1, pos, tok, got =>
    if ms_eof buf pos then (got, pos, tok)
    else
      let c := ms_peek buf pos
      let valid := if base = 10 then isdigit c else if base = 16 then isxdigit c else false
      if valid then
        intLoopAux buf base bufSize fuel (ms_getc buf pos).2 (pushTok tok bufSize c) true
      else (got, pos, tok)

/-- `readIntegerToken`: skip whitespace, optional sign when `allowSign`, then
digits of `base`; success requires at least one digit. -/
def readIntegerToken (buf : List Char) (pos : Nat) (allowSign : Bool)
    (base : Nat) (bufSize : Nat) : Bool × Nat × List Char :=
  if bufSize < 2 then (false, pos, [])
  else
    let p := ms_skip_whitespace buf pos
    let signStep : Nat × List Char :=
      if allowSign then
        let c := ms_peek buf p
        if c = '+' || c = '-' then ((ms_getc buf p).2, [c]) else (p, [])
      else (p, [])
    intLoopAux buf base bufSize (buf.length - signStep.1) signStep.1 signStep.2 false

/-- Main loop of `readFloatToken`: digits, one `.`, one `e`/`E`, and a sign
directly after the stored exponent marker. -/
def floatLoopAux (buf : List Char) (bufSize : Nat) :
    Nat → Nat → List Char → Bool → Bool → Bool → Bool × Nat × List Char
  | 0, pos, tok, gotAny, _, _ => (gotAny, pos, tok)
  | fuel + 1, pos, tok, gotAny, seenExponent, seenDot =>
    if ms_eof buf pos then (gotAny, pos, tok)
    else
      let c := ms_peek buf pos
      if isdigit c then
        floatLoopAux buf bufSize fuel (ms_getc buf pos).2 (pushTok tok bufSize c)
          true seenExponent seenDot
      else if !seenDot && c = '.' then
        floatLoopAux buf bufSize fuel (ms_getc buf pos).2 (pushTok tok bufSize c)
          true seenExponent true
      else if !seenExponent && (c = 'e' || c = 'E') then
        floatLoopAux buf bufSize fuel (ms_getc buf pos).2 (pushTok tok bufSize c)
          true true seenDot
      else if (c = '+' || c = '-') && seenExponent &&
          (!tok.isEmpty && (tok.getLast? = some 'e' || tok.getLast? = some 'E')) then
        floatLoopAux buf bufSize fuel (ms_getc buf pos).2 (pushTok tok bufSize c)
          true seenExponent seenDot
      else (gotAny, pos, tok)

/-- `readFloatToken`: skip whitespace, optional leading sign (which already sets
`gotAny`), then the float-shaped walk; returns `gotAny`. -/
def readFloatToken (buf : List Char) (pos : Nat) (bufSize : Nat) :
    Bool × Nat × List Char :=
  if bufSize < 2 then (false, pos, [])
  else
    let p := ms_skip_whitespace buf pos
    let c := ms_peek buf p
    let signStep : Nat × List Char × Bool :=
      if c = '+' || c = '-' then ((ms_getc buf p).2, [c], true) else (p, [], false)
    floatLoopAux buf bufSize (buf.length - signStep.1) signStep.1
      signStep.2.1 signStep.2.2 false false

/-- Main loop of `readString`: consume until whitespace or EOF, storing
(`dest[count++] = c`) only while `count < width - 1`. -/
def stringLoopAux (buf : List Char) (width : Int) :
    Nat → Nat → Nat → List Char → Nat × Nat × List Char
  | 0, pos, count, stored => (count, pos, stored)
  | fuel + 1, pos, count, stored =>
    if ms_eof buf pos then (count, pos, stored)
    else
      let c := ms_peek buf pos
      if isspace c then (count, pos, stored)
      else
        if (count : Int) < width - 1 then
          stringLoopAux buf width fuel (ms_getc buf pos).2 (count + 1) (stored ++ [c])
        else
          stringLoopAux buf width fuel (ms_getc buf pos).2 count stored

/-- `readString` (`%s`): skip whitespace, then read up to the next whitespace,
truncating the stored text after `width - 1` chars; success iff at least one
char was stored.  `width ≤ 0` is replaced by the source's large cap. -/
def readString (buf : List Char) (pos : Nat) (width : Int) : Bool × Nat × List Char :=
  let w : Int := if width ≤ 0 then 1048576 else width
  let p := ms_skip_whitespace buf pos
  let r := stringLoopAux buf w (buf.length - p) p 0 []
  (decide (0 < r.1), r.2.1, r.2.2)

/-! ### Numeric conversion (`std::from_chars`, `strtod`/`strtold` fallbacks) -/

/-- `LONG_MIN` on LP64. -/
def LONG_MIN : Int := -(2 ^ 63)

/-- `LONG_MAX` on LP64. -/
def LONG_MAX : Int := 2 ^ 63 - 1

/-- `ULONG_MAX` on LP64. -/
def ULONG_MAX : Nat := 2 ^ 64 - 1

/-- Digit validity for `std::from_chars` in the given base. -/
def isValidDigit (base : Nat) (c : Char) : Bool :=
  if base = 10 then isdigit c else if base = 16 then isxdigit c else false

/-- Numeric value of a digit character. -/
def digitVal (c : Char) : Nat :=
  if isdigit c then c.toNat - 48
  else if 97 ≤ c.toNat && c.toNat ≤ 102 then c.toNat - 87
  else if 65 ≤ c.toNat && c.toNat ≤ 70 then c.toNat - 55
  else 0

/-- Value of a digit string in the given base. -/
def digitsToNat (base : Nat) (l : List Char) : Nat :=
  l.foldl (fun a c => a * base + digitVal c) 0

/-- `std::from_chars` into a signed integer type with range `[lo, hi]`:
an optional `-` (never `+`), then the longest digit run; fails when the run is
empty or the value is out of range. -/
def fromCharsSigned (base : Nat) (lo hi : Int) (tok : List Char) : Option Int :=
  match tok with
  | '-' :: rest =>
    let ds := rest.takeWhile (isValidDigit base)
    if ds.isEmpty then none
    else
      let v : Int := -(digitsToNat base ds : Int)
      if lo ≤ v ∧ v ≤ hi then some v else none
  | _ =>
    let ds := tok.takeWhile (isValidDigit base)
    if ds.isEmpty then none
    else
      let v : Int := (digitsToNat base ds : Int)
      if lo ≤ v ∧ v ≤ hi then some v else none

/-- `std::from_chars` into an unsigned integer type with maximum `hi`:
no sign; the longest digit run; fails when empty or out of range. -/
def fromCharsUnsigned (base : Nat) (hi : Nat) (tok : List Char) : Option Nat :=
  let ds := tok.takeWhile (isValidDigit base)
  if ds.isEmpty then none
  else
    let v := digitsToNat base ds
    if v ≤ hi then some v else none

/-- Two's-complement wrap of an integer cast to a `w`-bit signed type. -/
def wrapS (w : Nat) (v : Int) : Int := (v + 2 ^ (w - 1)) % 2 ^ w - 2 ^ (w - 1)

/-- Whether the float body starts with a digit, or a `.` followed by a digit. -/
def floatBodyOk : List Char → Bool
  | [] => false
  | d :: rest =>
    isdigit d || (d = '.' && (match rest with | d2 :: _ => isdigit d2 | [] => false))

/-- Success of `strtod`/`strtold`/`std::from_chars` on a token produced by
`readFloatToken` (alphabet `+ - . e E 0-9`): some nonempty prefix parses as a
decimal float, i.e. after one optional sign there is a digit, or a `.`
followed by a digit.  The source's `%f` cases succeed exactly when this holds
(`from_chars` success implies it, and the `strtod` fallback with
`endp != tok` is equivalent to it on this alphabet). -/
def strtodAccepts : List Char → Bool
  | [] => false
  | c :: r => if c = '+' || c = '-' then floatBodyOk r else floatBodyOk (c :: r)

/-! ### The directive interpreter (`fast_fscanf_mem`) -/

/-- A value written through one of the variadic output pointers, tagged with
the C type of the slot.  Float-family slots record the captured token (their
numeric value is not modelled). -/
inductive ScanValue where
  | shortV (v : Int)
  | intV (v : Int)
  | longV (v : Int)
  | ushortV (v : Nat)
  | uintV (v : Nat)
  | ulongV (v : Nat)
  | floatV (tok : List Char)
  | doubleV (tok : List Char)
  | longdoubleV (tok : List Char)
  | charV (c : Char)
  | strV (s : List Char)
  deriving DecidableEq, Repr

/-- Observable state of one `fast_fscanf_mem` call: cursor position, match
count, and the sequence of output-slot writes performed so far (in order). -/
structure ScanState where
  pos : Nat
  matched : Nat
  writes : List ScanValue
  deriving DecidableEq, Repr

/-- Result of parsing a `%...X` conversion prefix out of the format string:
length modifiers, string width, and the terminal letter with the remaining
format (or `none` when the format ended at the `'\0'` check). -/
structure SpecParse where
  isShort : Bool
  isLong : Bool
  isLongDouble : Bool
  strWidth : Nat
  rest : Option (Char × List Char)
  deriving DecidableEq, Repr

/-- The length-modifier step after a `'%'` (the source's `h`/`l`/`L` else-if
chain): returns `(isShort, isLong, isLongDouble, remaining format)`. -/
def lengthMod (r : List Char) : Bool × Bool × Bool × List Char :=
  match r with
  | [] => (false, false, false, [])
  | c :: t =>
    if c = 'h' then (true, false, false, t)
    else if c = 'l' then (false, true, false, t)
    else if c = 'L' then (false, false, true, t)
    else (false, false, false, c :: t)

/-- Format remaining after the `'.'`/digit skip and the length modifier. -/
def specTail (r : List Char) : List Char :=
  (lengthMod (r.dropWhile (fun c => c = '.' || isdigit c))).2.2.2

/-- The width digits gathered for `%s` (the source gathers at most 15 into
`widthStr`). -/
def widthDigits (r : List Char) : List Char :=
  ((specTail r).takeWhile isdigit).take 15

/-- Parse the characters after a `'%'`: first skip `'.'` and digits, then one
optional length modifier `h`/`l`/`L`, then up to 15 width digits, then the
terminal spec letter (`none` when the format ended at the `'\0'` check). -/
def parseSpec (r : List Char) : SpecParse :=
  let m := lengthMod (r.dropWhile (fun c => c = '.' || isdigit c))
  match (specTail r).drop (widthDigits r).length with
  | [] => ⟨m.1, m.2.1, m.2.2.1, digitsToNat 10 (widthDigits r), none⟩
  | sp :: r4 => ⟨m.1, m.2.1, m.2.2.1, digitsToNat 10 (widthDigits r), some (sp, r4)⟩

/-- Pointwise relation on format strings: characters are equal, or both are
whitespace.  The interpreter treats any two whitespace format characters
identically (both select the whitespace-skip branch, and no whitespace
character is a `%`, a modifier, a digit, or a supported spec letter). -/
inductive FmtEquiv : List Char → List Char → Prop where
  | nil : FmtEquiv [] []
  | cons_eq (c : Char) {l1 l2 : List Char} : FmtEquiv l1 l2 → FmtEquiv (c :: l1) (c :: l2)
  | cons_ws {c1 c2 : Char} {l1 l2 : List Char} :
      isspace c1 = true → isspace c2 = true → FmtEquiv l1 l2 → FmtEquiv (c1 :: l1) (c2 :: l2)

/-- One conversion directive (`switch (spec)` in the source): returns the
written value on success (`none` on failure) and the new cursor position. -/
def specAction (buf : List Char) (pos : Nat) (spec : Char)
    (isShort isLong isLongDouble : Bool) (strWidth : Nat) : Option ScanValue × Nat :=
  if spec = 'd' then
    match readIntegerToken buf pos true 10 128 with
    | (true, p, tok) =>
      match fromCharsSigned 10 LONG_MIN LONG_MAX tok with
      | some v =>
        if isShort then (some (ScanValue.shortV (wrapS 16 v)), p)
        else if isLong then (some (ScanValue.longV v), p)
        else (some (ScanValue.intV (wrapS 32 v)), p)
      | none => (none, p)
    | (false, p, _) => (none, p)
  else if spec = 'u' then
    match readIntegerToken buf pos false 10 128 with
    | (true, p, tok) =>
      match fromCharsUnsigned 10 ULONG_MAX tok with
      | some v =>
        if isShort then (some (ScanValue.ushortV (v % 2 ^ 16)), p)
        else if isLong then (some (ScanValue.ulongV v), p)
        else (some (ScanValue.uintV (v % 2 ^ 32)), p)
      | none => (none, p)
    | (false, p, _) => (none, p)
  else if spec = 'x' then
    match readIntegerToken buf pos false 16 128 with
    | (true, p, tok) =>
      match fromCharsUnsigned 16 ULONG_MAX tok with
      | some v =>
        if isShort then (some (ScanValue.ushortV (v % 2 ^ 16)), p)
        else if isLong then (some (ScanValue.ulongV v), p)
        else (some (ScanValue.uintV (v % 2 ^ 32)), p)
      | none => (none, p)
    | (false, p, _) => (none, p)
  else if spec = 'f' ∨ spec = 'g' ∨ spec = 'e' then
    match readFloatToken buf pos 256 with
    | (true, p, tok) =>
      if strtodAccepts tok then
        if isLongDouble then (some (ScanValue.longdoubleV tok), p)
        else if isLong then (some (ScanValue.doubleV tok), p)
        else (some (ScanValue.floatV tok), p)
      else (none, p)
    | (false, p, _) => (none, p)
  else if spec = 'c' then
    match readChar buf pos with
    | (some c, p) => (some (ScanValue.charV c), p)
    | (none, p) => (none, p)
  else if spec = 's' then
    match readString buf pos (if 0 < strWidth then (strWidth : Int) else 1024) with
    | (true, p, stored) => (some (ScanValue.strV stored), p)
    | (false, p, _) => (none, p)
  else (none, pos)

/-- The source's dedicated newline branch: consume whitespace until a `'\n'`
is consumed, pushing back (via `ms_ungetc`) a non-whitespace character.
(Unreachable from the interpreter, since `isspace '\n'` holds; embedded for
fidelity.) -/
def newlineMatchAux (buf : List Char) : Nat → Nat → Nat
  | 0, pos => pos
  | fuel + 1, pos =>
    if ms_eof buf pos then pos
    else
      let c := (ms_getc buf pos).1
      let p2 := (ms_getc buf pos).2
      if c = '\n' then p2
      else if isspace c then newlineMatchAux buf fuel p2
      else ms_ungetc buf p2

/-- Entry wrapper for the newline branch. -/
def newlineMatch (buf : List Char) (pos : Nat) : Nat :=
  newlineMatchAux buf (buf.length - pos) pos

/-- The interpreter loop (`while (*format)` in the source).  The fuel is the
length of the format; every iteration consumes at least one format character,
so `fmt.length` fuel computes the full walk. -/
def scanLoopAux (buf : List Char) : Nat → List Char → ScanState → ScanState
  | 0, _, st => st
  | fuel + 1, fmt, st =>
    match fmt with
    | [] => st
    | c :: rest =>
      if c = '%' then
        match (parseSpec rest).rest with
        | none => st
        | some (sp, rest2) =>
          match specAction buf st.pos sp (parseSpec rest).isShort (parseSpec rest).isLong
              (parseSpec rest).isLongDouble (parseSpec rest).strWidth with
          | (some v, p) => scanLoopAux buf fuel rest2 ⟨p, st.matched + 1, st.writes ++ [v]⟩
          | (none, p) => ⟨p, st.matched, st.writes⟩
      else if isspace c then
        scanLoopAux buf fuel rest ⟨ms_skip_whitespace buf st.pos, st.matched, st.writes⟩
      else if c = '\n' then
        scanLoopAux buf fuel rest ⟨newlineMatch buf st.pos, st.matched, st.writes⟩
      else
        let p := ms_skip_whitespace buf st.pos
        if ms_eof buf p then ⟨p, st.matched, st.writes⟩
        else
          let g := ms_getc buf p
          if g.1 = c then scanLoopAux buf fuel rest ⟨g.2, st.matched, st.writes⟩
          else ⟨ms_ungetc buf g.2, st.matched, st.writes⟩

/-- `fast_fscanf_mem buffer size offset format ...`: returns the final cursor
position (the `*offset` write-back), the match count (the return value), and
the ordered output-slot writes. -/
def fast_fscanf_mem (buf : List Char) (offset : Nat) (fmt : List Char) : ScanState :=
  scanLoopAux buf fmt.length fmt ⟨offset, 0, []⟩

/-- The sample input line of the spec scenario (§8). -/
def c1input : List Char := ":1a[5]( 3 7 42 ff 2b3 1.5 2.25 tok 01/02/2024 09:30:00\n".data

/-- The sample 16-directive format of the spec scenario (§8). -/
def c1format : List Char := ":%x[%hd]( %hd %hu %d %x %lx %f %Lf %s %hd/%hd/%hd %hd:%hd:%hd\n".data


theorem ms_eof_false_iff (buf : List Char) (pos : Nat) :
    ms_eof buf pos = false ↔ pos < buf.length := by
  simp [ms_eof]

theorem ms_getc_ge (buf : List Char) (pos : Nat) : pos ≤ (ms_getc buf pos).2 := by
  simp only [ms_getc]
  split <;> simp

theorem ms_getc_le (buf : List Char) (pos : Nat) (h : pos ≤ buf.length) :
    (ms_getc buf pos).2 ≤ buf.length := by
  simp only [ms_getc]
  split
  · exact h
  · rename_i hc
    rw [Bool.not_eq_true] at hc  
    have := (ms_eof_false_iff buf pos).mp hc
    omega

theorem ms_ungetc_eq (buf : List Char) (pos : Nat) (h : pos ≤ buf.length) :
    ms_ungetc buf pos = pos := by
  simp only [ms_ungetc]
  split_ifs <;> omega

theorem skipWsAux_ge (buf : List Char) :
    ∀ fuel pos, pos ≤ skipWsAux buf fuel pos := by
  intro fuel
  induction fuel with
  | zero => intro pos; simp [skipWsAux]
  | succ n ih =>
    intro pos
    simp only [skipWsAux]
    split
    · exact le_trans (Nat.le_succ pos) (ih (pos + 1))
    · exact le_refl pos

theorem skipWsAux_le (buf : List Char) :
    ∀ fuel pos, pos ≤ buf.length → skipWsAux buf fuel pos ≤ buf.length := by
  intro fuel
  induction fuel with
  | zero => intro pos h; simpa [skipWsAux] using h
  | succ n ih =>
    intro pos h
    simp only [skipWsAux]
    split
    · rename_i hc
      have h1 : ms_eof buf pos = false := by
        cases hms : ms_eof buf pos <;> simp [hms] at hc ⊢
      have := (ms_eof_false_iff buf pos).mp h1
      exact ih (pos + 1) (by omega)
    · exact h

theorem ms_skip_whitespace_ge (buf : List Char) (pos : Nat) :
    pos ≤ ms_skip_whitespace buf pos := skipWsAux_ge buf _ pos

theorem ms_skip_whitespace_le (buf : List Char) (pos : Nat) (h : pos ≤ buf.length) :
    ms_skip_whitespace buf pos ≤ buf.length := skipWsAux_le buf _ pos h

theorem ms_skip_whitespace_at_end (buf : List Char) (pos : Nat) (h : buf.length ≤ pos) :
    ms_skip_whitespace buf pos = pos := by
  simp [ms_skip_whitespace, Nat.sub_eq_zero_of_le h, skipWsAux]


theorem intLoopAux_ge (buf : List Char) (base bufSize : Nat) :
    ∀ fuel pos tok got, pos ≤ (intLoopAux buf base bufSize fuel pos tok got).2.1 := by
  intro fuel
  induction fuel with
  | zero => intros; simp [intLoopAux]
  | succ n ih =>
    intro pos tok got
    simp only [intLoopAux]
    split_ifs <;>
      first
        | exact le_trans (ms_getc_ge buf pos) (ih _ _ _)
        | exact Nat.le_refl pos

theorem intLoopAux_le (buf : List Char) (base bufSize : Nat) :
    ∀ fuel pos tok got, pos ≤ buf.length →
      (intLoopAux buf base bufSize fuel pos tok got).2.1 ≤ buf.length := by
  intro fuel
  induction fuel with
  | zero => intro pos tok got h; simpa [intLoopAux] using h
  | succ n ih =>
    intro pos tok got h
    simp only [intLoopAux]
    split_ifs <;>
      first
        | exact ih _ _ _ (ms_getc_le buf pos h)
        | exact h

theorem floatLoopAux_ge (buf : List Char) (bufSize : Nat) :
    ∀ fuel pos tok a b c, pos ≤ (floatLoopAux buf bufSize fuel pos tok a b c).2.1 := by
  intro fuel
  induction fuel with
  | zero => intros; simp [floatLoopAux]
  | succ n ih =>
    intro pos tok a b c
    simp only [floatLoopAux]
    split
    · simp
    · split
      · exact le_trans (ms_getc_ge buf pos) (ih _ _ _ _ _)
      · split
        · exact le_trans (ms_getc_ge buf pos) (ih _ _ _ _ _)
        · split
          · exact le_trans (ms_getc_ge buf pos) (ih _ _ _ _ _)
          · split
            · exact le_trans (ms_getc_ge buf pos) (ih _ _ _ _ _)
            · simp

theorem floatLoopAux_le (buf : List Char) (bufSize : Nat) :
    ∀ fuel pos tok a b c, pos ≤ buf.length →
      (floatLoopAux buf bufSize fuel pos tok a b c).2.1 ≤ buf.length := by
  intro fuel
  induction fuel with
  | zero => intro pos tok a b c h; simpa [floatLoopAux] using h
  | succ n ih =>
    intro pos tok a b c h
    simp only [floatLoopAux]
    split
    · simpa using h
    · split
      · exact ih _ _ _ _ _ (ms_getc_le buf pos h)
      · split
        · exact ih _ _ _ _ _ (ms_getc_le buf pos h)
        · split
          · exact ih _ _ _ _ _ (ms_getc_le buf pos h)
          · split
            · exact ih _ _ _ _ _ (ms_getc_le buf pos h)
            · simpa using h

theorem stringLoopAux_ge (buf : List Char) (width : Int) :
    ∀ fuel pos count stored, pos ≤ (stringLoopAux buf width fuel pos count stored).2.1 := by
  intro fuel
  induction fuel with
  | zero => intros; simp [stringLoopAux]
  | succ n ih =>
    intro pos count stored
    simp only [stringLoopAux]
    split
    · simp
    · split
      · simp
      · split
        · exact le_trans (ms_getc_ge buf pos) (ih _ _ _)
        · exact le_trans (ms_getc_ge buf pos) (ih _ _ _)

theorem stringLoopAux_le (buf : List Char) (width : Int) :
    ∀ fuel pos count stored, pos ≤ buf.length →
      (stringLoopAux buf width fuel pos count stored).2.1 ≤ buf.length := by
  intro fuel
  induction fuel with
  | zero => intro pos count stored h; simpa [stringLoopAux] using h
  | succ n ih =>
    intro pos count stored h
    simp only [stringLoopAux]
    split
    · simpa using h
    · split
      · simpa using h
      · split
        · exact ih _ _ _ (ms_getc_le buf pos h)
        · exact ih _ _ _ (ms_getc_le buf pos h)

theorem newlineMatchAux_ge (buf : List Char) :
    ∀ fuel pos, pos ≤ newlineMatchAux buf fuel pos := by
  intro fuel
  induction fuel with
  | zero => intro pos; simp [newlineMatchAux]
  | succ n ih =>
    intro pos
    simp only [newlineMatchAux]
    split
    · exact le_refl pos
    · rename_i hc
      have hlt : pos < buf.length := by
        cases hms : ms_eof buf pos
        · exact (ms_eof_false_iff buf pos).mp hms
        · simp [hms] at hc
      split
      · exact ms_getc_ge buf pos
      · split
        · exact le_trans (ms_getc_ge buf pos) (ih _)
        · rw [ms_ungetc_eq buf _ (ms_getc_le buf pos (le_of_lt hlt))]
          exact ms_getc_ge buf pos

theorem newlineMatchAux_le (buf : List Char) :
    ∀ fuel pos, pos ≤ buf.length → newlineMatchAux buf fuel pos ≤ buf.length := by
  intro fuel
  induction fuel with
  | zero => intro pos h; simpa [newlineMatchAux] using h
  | succ n ih =>
    intro pos h
    simp only [newlineMatchAux]
    split
    · exact h
    · split
      · exact ms_getc_le buf pos h
      · split
        · exact ih _ (ms_getc_le buf pos h)
        · rw [ms_ungetc_eq buf _ (ms_getc_le buf pos h)]
          exact ms_getc_le buf pos h

theorem newlineMatch_ge (buf : List Char) (pos : Nat) : pos ≤ newlineMatch buf pos :=
  newlineMatchAux_ge buf _ pos

theorem newlineMatch_le (buf : List Char) (pos : Nat) (h : pos ≤ buf.length) :
    newlineMatch buf pos ≤ buf.length := newlineMatchAux_le buf _ pos h


theorem readChar_ge (buf : List Char) (pos : Nat) : pos ≤ (readChar buf pos).2 := by
  simp only [readChar]
  split
  · exact le_refl pos
  · exact ms_getc_ge buf pos

theorem readChar_le (buf : List Char) (pos : Nat) (h : pos ≤ buf.length) :
    (readChar buf pos).2 ≤ buf.length := by
  simp only [readChar]
  split
  · exact h
  · exact ms_getc_le buf pos h

theorem readIntegerToken_ge (buf : List Char) (pos : Nat) (s : Bool) (base bufSize : Nat) :
    pos ≤ (readIntegerToken buf pos s base bufSize).2.1 := by
  simp only [readIntegerToken]
  split_ifs <;>
    first
      | exact Nat.le_refl pos
      | exact le_trans (ms_skip_whitespace_ge buf pos)
          (le_trans (ms_getc_ge buf _) (intLoopAux_ge buf base bufSize _ _ _ _))
      | exact le_trans (ms_skip_whitespace_ge buf pos) (intLoopAux_ge buf base bufSize _ _ _ _)

theorem readIntegerToken_le (buf : List Char) (pos : Nat) (s : Bool) (base bufSize : Nat)
    (h : pos ≤ buf.length) : (readIntegerToken buf pos s base bufSize).2.1 ≤ buf.length := by
  simp only [readIntegerToken]
  split_ifs <;>
    first
      | exact h
      | exact intLoopAux_le buf base bufSize _ _ _ _
          (ms_getc_le buf _ (ms_skip_whitespace_le buf pos h))
      | exact intLoopAux_le buf base bufSize _ _ _ _ (ms_skip_whitespace_le buf pos h)

theorem readFloatToken_ge (buf : List Char) (pos : Nat) (bufSize : Nat) :
    pos ≤ (readFloatToken buf pos bufSize).2.1 := by
  simp only [readFloatToken]
  split_ifs <;>
    first
      | exact Nat.le_refl pos
      | exact le_trans (ms_skip_whitespace_ge buf pos)
          (le_trans (ms_getc_ge buf _) (floatLoopAux_ge buf bufSize _ _ _ _ _ _))
      | exact le_trans (ms_skip_whitespace_ge buf pos) (floatLoopAux_ge buf bufSize _ _ _ _ _ _)

theorem readFloatToken_le (buf : List Char) (pos : Nat) (bufSize : Nat)
    (h : pos ≤ buf.length) : (readFloatToken buf pos bufSize).2.1 ≤ buf.length := by
  simp only [readFloatToken]
  split_ifs <;>
    first
      | exact h
      | exact floatLoopAux_le buf bufSize _ _ _ _ _ _
          (ms_getc_le buf _ (ms_skip_whitespace_le buf pos h))
      | exact floatLoopAux_le buf bufSize _ _ _ _ _ _ (ms_skip_whitespace_le buf pos h)

theorem readString_ge (buf : List Char) (pos : Nat) (w : Int) :
    pos ≤ (readString buf pos w).2.1 := by
  simp only [readString]
  exact le_trans (ms_skip_whitespace_ge buf pos) (stringLoopAux_ge buf _ _ _ _ _)

theorem readString_le (buf : List Char) (pos : Nat) (w : Int) (h : pos ≤ buf.length) :
    (readString buf pos w).2.1 ≤ buf.length := by
  simp only [readString]
  exact stringLoopAux_le buf _ _ _ _ _ (ms_skip_whitespace_le buf pos h)

theorem specAction_ge (buf : List Char) (pos : Nat) (spec : Char) (a b c : Bool) (w : Nat) :
    pos ≤ (specAction buf pos spec a b c w).2 := by
  simp only [specAction]
  by_cases h1 : spec = 'd'
  · rw [if_pos h1]
    have hp := readIntegerToken_ge buf pos true 10 128
    rcases hh : readIntegerToken buf pos true 10 128 with ⟨got, p, tok⟩
    rw [hh] at hp
    cases got
    all_goals dsimp only
    · exact hp
    · cases fromCharsSigned 10 LONG_MIN LONG_MAX tok
      · exact hp
      · split_ifs <;> exact hp
  rw [if_neg h1]
  by_cases h2 : spec = 'u'
  · rw [if_pos h2]
    have hp := readIntegerToken_ge buf pos false 10 128
    rcases hh : readIntegerToken buf pos false 10 128 with ⟨got, p, tok⟩
    rw [hh] at hp
    cases got
    all_goals dsimp only
    · exact hp
    · cases fromCharsUnsigned 10 ULONG_MAX tok
      · exact hp
      · split_ifs <;> exact hp
  rw [if_neg h2]
  by_cases h3 : spec = 'x'
  · rw [if_pos h3]
    have hp := readIntegerToken_ge buf pos false 16 128
    rcases hh : readIntegerToken buf pos false 16 128 with ⟨got, p, tok⟩
    rw [hh] at hp
    cases got
    all_goals dsimp only
    · exact hp
    · cases fromCharsUnsigned 16 ULONG_MAX tok
      · exact hp
      · split_ifs <;> exact hp
  rw [if_neg h3]
  by_cases h4 : spec = 'f' ∨ spec = 'g' ∨ spec = 'e'
  · rw [if_pos h4]
    have hp := readFloatToken_ge buf pos 256
    rcases hh : readFloatToken buf pos 256 with ⟨got, p, tok⟩
    rw [hh] at hp
    cases got
    all_goals dsimp only
    · exact hp
    · split_ifs <;> exact hp
  rw [if_neg h4]
  by_cases h5 : spec = 'c'
  · rw [if_pos h5]
    have hp := readChar_ge buf pos
    rcases hh : readChar buf pos with ⟨oc, p⟩
    rw [hh] at hp
    cases oc <;> exact hp
  rw [if_neg h5]
  by_cases h6 : spec = 's'
  · rw [if_pos h6]
    have hp := readString_ge buf pos (if 0 < w then (w : Int) else 1024)
    rcases hh : readString buf pos (if 0 < w then (w : Int) else 1024) with ⟨ok, p, stored⟩
    rw [hh] at hp
    cases ok <;> exact hp
  rw [if_neg h6]

theorem specAction_le (buf : List Char) (pos : Nat) (spec : Char) (a b c : Bool) (w : Nat)
    (hle : pos ≤ buf.length) : (specAction buf pos spec a b c w).2 ≤ buf.length := by
  simp only [specAction]
  by_cases h1 : spec = 'd'
  · rw [if_pos h1]
    have hp := readIntegerToken_le buf pos true 10 128 hle
    rcases hh : readIntegerToken buf pos true 10 128 with ⟨got, p, tok⟩
    rw [hh] at hp
    cases got
    all_goals dsimp only
    · exact hp
    · cases fromCharsSigned 10 LONG_MIN LONG_MAX tok
      · exact hp
      · split_ifs <;> exact hp
  rw [if_neg h1]
  by_cases h2 : spec = 'u'
  · rw [if_pos h2]
    have hp := readIntegerToken_le buf pos false 10 128 hle
    rcases hh : readIntegerToken buf pos false 10 128 with ⟨got, p, tok⟩
    rw [hh] at hp
    cases got
    all_goals dsimp only
    · exact hp
    · cases fromCharsUnsigned 10 ULONG_MAX tok
      · exact hp
      · split_ifs <;> exact hp
  rw [if_neg h2]
  by_cases h3 : spec = 'x'
  · rw [if_pos h3]
    have hp := readIntegerToken_le buf pos false 16 128 hle
    rcases hh : readIntegerToken buf pos false 16 128 with ⟨got, p, tok⟩
    rw [hh] at hp
    cases got
    all_goals dsimp only
    · exact hp
    · cases fromCharsUnsigned 16 ULONG_MAX tok
      · exact hp
      · split_ifs <;> exact hp
  rw [if_neg h3]
  by_cases h4 : spec = 'f' ∨ spec = 'g' ∨ spec = 'e'
  · rw [if_pos h4]
    have hp := readFloatToken_le buf pos 256 hle
    rcases hh : readFloatToken buf pos 256 with ⟨got, p, tok⟩
    rw [hh] at hp
    cases got
    all_goals dsimp only
    · exact hp
    · split_ifs <;> exact hp
  rw [if_neg h4]
  by_cases h5 : spec = 'c'
  · rw [if_pos h5]
    have hp := readChar_le buf pos hle
    rcases hh : readChar buf pos with ⟨oc, p⟩
    rw [hh] at hp
    cases oc <;> exact hp
  rw [if_neg h5]
  by_cases h6 : spec = 's'
  · rw [if_pos h6]
    have hp := readString_le buf pos (if 0 < w then (w : Int) else 1024) hle
    rcases hh : readString buf pos (if 0 < w then (w : Int) else 1024) with ⟨ok, p, stored⟩
    rw [hh] at hp
    cases ok <;> exact hp
  rw [if_neg h6]
  exact hle


theorem zeroChar_not_sign : (Char.ofNat 0 = '+' || Char.ofNat 0 = '-') = false := by decide

theorem readIntegerToken_at_end (buf : List Char) (s : Bool) (base bufSize : Nat) :
    readIntegerToken buf buf.length s base bufSize = (false, buf.length, []) := by
  have h1 : ms_skip_whitespace buf buf.length = buf.length :=
    ms_skip_whitespace_at_end buf _ (Nat.le_refl _)
  have h2 : ms_peek buf buf.length = Char.ofNat 0 := by simp [ms_peek, ms_eof]
  simp [readIntegerToken, h1, h2, zeroChar_not_sign, intLoopAux, Nat.sub_self]

theorem readFloatToken_at_end (buf : List Char) (bufSize : Nat) :
    readFloatToken buf buf.length bufSize = (false, buf.length, []) := by
  have h1 : ms_skip_whitespace buf buf.length = buf.length :=
    ms_skip_whitespace_at_end buf _ (Nat.le_refl _)
  have h2 : ms_peek buf buf.length = Char.ofNat 0 := by simp [ms_peek, ms_eof]
  simp [readFloatToken, h1, h2, zeroChar_not_sign, floatLoopAux, Nat.sub_self]

theorem readString_at_end (buf : List Char) (w : Int) :
    readString buf buf.length w = (false, buf.length, []) := by
  have h1 : ms_skip_whitespace buf buf.length = buf.length :=
    ms_skip_whitespace_at_end buf _ (Nat.le_refl _)
  simp [readString, h1, stringLoopAux, Nat.sub_self]

theorem readChar_at_end (buf : List Char) : readChar buf buf.length = (none, buf.length) := by
  simp [readChar, ms_eof]

theorem newlineMatch_at_end (buf : List Char) :
    newlineMatch buf buf.length = buf.length := by
  simp [newlineMatch, Nat.sub_self, newlineMatchAux]

theorem specAction_at_end (buf : List Char) (spec : Char) (a b c : Bool) (w : Nat) :
    specAction buf buf.length spec a b c w = (none, buf.length) := by
  simp only [specAction]
  by_cases h1 : spec = 'd'
  · rw [if_pos h1, readIntegerToken_at_end]
  rw [if_neg h1]
  by_cases h2 : spec = 'u'
  · rw [if_pos h2, readIntegerToken_at_end]
  rw [if_neg h2]
  by_cases h3 : spec = 'x'
  · rw [if_pos h3, readIntegerToken_at_end]
  rw [if_neg h3]
  by_cases h4 : spec = 'f' ∨ spec = 'g' ∨ spec = 'e'
  · rw [if_pos h4, readFloatToken_at_end]
  rw [if_neg h4]
  by_cases h5 : spec = 'c'
  · rw [if_pos h5, readChar_at_end]
  rw [if_neg h5]
  by_cases h6 : spec = 's'
  · rw [if_pos h6, readString_at_end]
  rw [if_neg h6]

theorem scanLoopAux_pos_mono (buf : List Char) :
    ∀ fuel fmt st, st.pos ≤ (scanLoopAux buf fuel fmt st).pos := by
  intro fuel
  induction fuel with
  | zero => intro fmt st; exact Nat.le_refl _
  | succ n ih =>
    intro fmt st
    cases fmt with
    | nil => exact Nat.le_refl _
    | cons ch rest =>
      simp only [scanLoopAux]
      by_cases h1 : ch = '%'
      · rw [if_pos h1]
        cases hps : (parseSpec rest).rest with
        | none => exact Nat.le_refl _
        | some pr =>
          obtain ⟨sp, rest2⟩ := pr
          dsimp only
          have hsa := specAction_ge buf st.pos sp (parseSpec rest).isShort
            (parseSpec rest).isLong (parseSpec rest).isLongDouble (parseSpec rest).strWidth
          rcases hac : specAction buf st.pos sp (parseSpec rest).isShort
            (parseSpec rest).isLong (parseSpec rest).isLongDouble (parseSpec rest).strWidth
            with ⟨o, p⟩
          rw [hac] at hsa
          cases o with
          | some v => exact le_trans hsa (ih rest2 ⟨p, st.matched + 1, st.writes ++ [v]⟩)
          | none => exact hsa
      rw [if_neg h1]
      by_cases h2 : isspace ch = true
      · rw [if_pos h2]
        exact le_trans (ms_skip_whitespace_ge buf st.pos)
          (ih rest ⟨ms_skip_whitespace buf st.pos, st.matched, st.writes⟩)
      rw [if_neg h2]
      by_cases h3 : ch = '\n'
      · rw [if_pos h3]
        exact le_trans (newlineMatch_ge buf st.pos)
          (ih rest ⟨newlineMatch buf st.pos, st.matched, st.writes⟩)
      rw [if_neg h3]
      by_cases h4 : ms_eof buf (ms_skip_whitespace buf st.pos) = true
      · rw [if_pos h4]
        exact ms_skip_whitespace_ge buf st.pos
      rw [if_neg h4]
      have h4f : ms_eof buf (ms_skip_whitespace buf st.pos) = false := by
        simpa using h4
      have hlt := (ms_eof_false_iff buf _).mp h4f
      by_cases h5 : (ms_getc buf (ms_skip_whitespace buf st.pos)).1 = ch
      · rw [if_pos h5]
        exact le_trans (le_trans (ms_skip_whitespace_ge buf st.pos) (ms_getc_ge buf _))
          (ih rest ⟨(ms_getc buf (ms_skip_whitespace buf st.pos)).2, st.matched, st.writes⟩)
      rw [if_neg h5]
      rw [ms_ungetc_eq buf _ (ms_getc_le buf _ (le_of_lt hlt))]
      exact le_trans (ms_skip_whitespace_ge buf st.pos) (ms_getc_ge buf _)

theorem scanLoopAux_pos_le (buf : List Char) :
    ∀ fuel fmt st, st.pos ≤ buf.length → (scanLoopAux buf fuel fmt st).pos ≤ buf.length := by
  intro fuel
  induction fuel with
  | zero => intro fmt st h; exact h
  | succ n ih =>
    intro fmt st h
    cases fmt with
    | nil => exact h
    | cons ch rest =>
      simp only [scanLoopAux]
      by_cases h1 : ch = '%'
      · rw [if_pos h1]
        cases hps : (parseSpec rest).rest with
        | none => exact h
        | some pr =>
          obtain ⟨sp, rest2⟩ := pr
          dsimp only
          have hsa := specAction_le buf st.pos sp (parseSpec rest).isShort
            (parseSpec rest).isLong (parseSpec rest).isLongDouble (parseSpec rest).strWidth h
          rcases hac : specAction buf st.pos sp (parseSpec rest).isShort
            (parseSpec rest).isLong (parseSpec rest).isLongDouble (parseSpec rest).strWidth
            with ⟨o, p⟩
          rw [hac] at hsa
          cases o with
          | some v => exact ih rest2 ⟨p, st.matched + 1, st.writes ++ [v]⟩ hsa
          | none => exact hsa
      rw [if_neg h1]
      by_cases h2 : isspace ch = true
      · rw [if_pos h2]
        exact ih rest _ (ms_skip_whitespace_le buf st.pos h)
      rw [if_neg h2]
      by_cases h3 : ch = '\n'
      · rw [if_pos h3]
        exact ih rest _ (newlineMatch_le buf st.pos h)
      rw [if_neg h3]
      by_cases h4 : ms_eof buf (ms_skip_whitespace buf st.pos) = true
      · rw [if_pos h4]
        exact ms_skip_whitespace_le buf st.pos h
      rw [if_neg h4]
      by_cases h5 : (ms_getc buf (ms_skip_whitespace buf st.pos)).1 = ch
      · rw [if_pos h5]
        exact ih rest _ (ms_getc_le buf _ (ms_skip_whitespace_le buf st.pos h))
      rw [if_neg h5]
      rw [ms_ungetc_eq buf _ (ms_getc_le buf _ (ms_skip_whitespace_le buf st.pos h))]
      exact ms_getc_le buf _ (ms_skip_whitespace_le buf st.pos h)

theorem scanLoopAux_at_end (buf : List Char) :
    ∀ fuel fmt (m0 : Nat) (w0 : List ScanValue),
      scanLoopAux buf fuel fmt ⟨buf.length, m0, w0⟩ = ⟨buf.length, m0, w0⟩ := by
  intro fuel
  induction fuel with
  | zero => intro fmt m0 w0; rfl
  | succ n ih =>
    intro fmt m0 w0
    cases fmt with
    | nil => rfl
    | cons ch rest =>
      simp only [scanLoopAux]
      by_cases h1 : ch = '%'
      · rw [if_pos h1]
        cases hps : (parseSpec rest).rest with
        | none => rfl
        | some pr =>
          obtain ⟨sp, rest2⟩ := pr
          dsimp only
          rw [specAction_at_end]
      rw [if_neg h1]
      by_cases h2 : isspace ch = true
      · rw [if_pos h2]
        rw [ms_skip_whitespace_at_end buf _ (Nat.le_refl _)]
        exact ih rest m0 w0
      rw [if_neg h2]
      by_cases h3 : ch = '\n'
      · rw [if_pos h3]
        rw [newlineMatch_at_end buf]
        exact ih rest m0 w0
      rw [if_neg h3]
      rw [ms_skip_whitespace_at_end buf _ (Nat.le_refl _)]
      rw [if_pos (by simp [ms_eof] : ms_eof buf buf.length = true)]

theorem scanLoopAux_frame (buf : List Char) :
    ∀ fuel fmt st, ∃ ws, (scanLoopAux buf fuel fmt st).writes = st.writes ++ ws ∧
      (scanLoopAux buf fuel fmt st).matched = st.matched + ws.length := by
  intro fuel
  induction fuel with
  | zero => intro fmt st; exact ⟨[], by simp [scanLoopAux], by simp [scanLoopAux]⟩
  | succ n ih =>
    intro fmt st
    cases fmt with
    | nil => exact ⟨[], by simp [scanLoopAux], by simp [scanLoopAux]⟩
    | cons ch rest =>
      simp only [scanLoopAux]
      by_cases h1 : ch = '%'
      · rw [if_pos h1]
        cases hps : (parseSpec rest).rest with
        | none => exact ⟨[], by simp, by simp⟩
        | some pr =>
          obtain ⟨sp, rest2⟩ := pr
          dsimp only
          rcases hac : specAction buf st.pos sp (parseSpec rest).isShort
            (parseSpec rest).isLong (parseSpec rest).isLongDouble (parseSpec rest).strWidth
            with ⟨o, p⟩
          cases o with
          | none => exact ⟨[], by simp, by simp⟩
          | some v =>
            obtain ⟨ws, hw, hm⟩ := ih rest2 ⟨p, st.matched + 1, st.writes ++ [v]⟩
            refine ⟨v :: ws, ?_, ?_⟩
            · rw [hw]
              simp
            · rw [hm]
              simp
              omega
      rw [if_neg h1]
      by_cases h2 : isspace ch = true
      · rw [if_pos h2]
        exact ih rest _
      rw [if_neg h2]
      by_cases h3 : ch = '\n'
      · rw [if_pos h3]
        exact ih rest _
      rw [if_neg h3]
      by_cases h4 : ms_eof buf (ms_skip_whitespace buf st.pos) = true
      · rw [if_pos h4]
        exact ⟨[], by simp, by simp⟩
      rw [if_neg h4]
      by_cases h5 : (ms_getc buf (ms_skip_whitespace buf st.pos)).1 = ch
      · rw [if_pos h5]
        exact ih rest _
      rw [if_neg h5]
      exact ⟨[], by simp, by simp⟩


theorem ms_peek_lt (buf : List Char) (pos : Nat) (h : pos < buf.length) :
    ms_peek buf pos = buf[pos] := by
  have he : ms_eof buf pos = false := (ms_eof_false_iff buf pos).mpr h
  simp [ms_peek, he, List.getElem?_eq_getElem h]

theorem ms_getc_lt (buf : List Char) (pos : Nat) (h : pos < buf.length) :
    ms_getc buf pos = (buf[pos], pos + 1) := by
  have he : ms_eof buf pos = false := (ms_eof_false_iff buf pos).mpr h
  simp [ms_getc, he, List.getElem?_eq_getElem h]

theorem stringLoopAux_spec (buf : List Char) (w : Int) :
    ∀ fuel pos count stored,
      ((buf.drop pos).takeWhile (fun c => !isspace c)).length ≤ fuel →
      stringLoopAux buf w fuel pos count stored =
        (count + min ((buf.drop pos).takeWhile (fun c => !isspace c)).length (w - 1 - count).toNat,
         pos + ((buf.drop pos).takeWhile (fun c => !isspace c)).length,
         stored ++ ((buf.drop pos).takeWhile (fun c => !isspace c)).take (w - 1 - count).toNat) := by
  intro fuel
  induction fuel with
  | zero =>
    intro pos count stored hlen
    have ht : (buf.drop pos).takeWhile (fun c => !isspace c) = [] :=
      List.length_eq_zero.mp (Nat.le_zero.mp hlen)
    simp [stringLoopAux, ht]
  | succ n ih =>
    intro pos count stored hlen
    by_cases hpos : buf.length ≤ pos
    · have hd : buf.drop pos = [] := List.drop_eq_nil_of_le hpos
      have he : ms_eof buf pos = true := by simp [ms_eof, hpos]
      simp [stringLoopAux, he, hd]
    · push_neg at hpos
      have he : ms_eof buf pos = false := (ms_eof_false_iff buf pos).mpr hpos
      have hdrop : buf.drop pos = buf[pos] :: buf.drop (pos + 1) :=
        List.drop_eq_getElem_cons hpos
      by_cases hsp : isspace buf[pos] = true
      · have ht : (buf.drop pos).takeWhile (fun c => !isspace c) = [] := by
          rw [hdrop, List.takeWhile_cons]
          simp [hsp]
        rw [ht]
        simp [stringLoopAux, he, ms_peek_lt buf pos hpos, hsp]
      · have hspf : isspace buf[pos] = false := by simpa using hsp
        have ht : (buf.drop pos).takeWhile (fun c => !isspace c)
            = buf[pos] :: (buf.drop (pos + 1)).takeWhile (fun c => !isspace c) := by
          rw [hdrop, List.takeWhile_cons]
          simp [hspf]
        have hlen2 : ((buf.drop (pos + 1)).takeWhile (fun c => !isspace c)).length ≤ n := by
          rw [ht] at hlen
          simpa using hlen
        rw [ht]
        simp only [stringLoopAux, he, Bool.false_eq_true, if_false,
          ms_peek_lt buf pos hpos, hspf, ms_getc_lt buf pos hpos]
        by_cases hcnt : (count : Int) < w - 1
        · rw [if_pos hcnt]
          rw [ih (pos + 1) (count + 1) (stored ++ [buf[pos]]) hlen2]
          obtain ⟨k, hk⟩ : ∃ k, (w - 1 - count).toNat = k + 1 :=
            ⟨(w - 1 - count).toNat - 1, by omega⟩
          have hk2 : (w - 1 - (count + 1 : Nat)).toNat = k := by push_cast; omega
          rw [hk, hk2, List.take_succ_cons]
          simp only [Prod.mk.injEq]
          refine ⟨by simp [List.length_cons]; omega, by simp [List.length_cons]; omega, ?_⟩
          simp [List.append_assoc]
        · rw [if_neg hcnt]
          rw [ih (pos + 1) count stored hlen2]
          have hz : (w - 1 - count).toNat = 0 := by omega
          rw [hz]
          simp
          omega


theorem isspace_ne (c x : Char) (hc : isspace c = true) (hx : isspace x = false) : c ≠ x := by
  intro h
  rw [h, hx] at hc
  exact Bool.false_ne_true hc

theorem ws_not_digit (c : Char) (h : isspace c = true) : isdigit c = false := by
  simp [isspace] at h
  simp [isdigit]
  omega

theorem ws_not_dotdigit (c : Char) (h : isspace c = true) :
    ((c = '.' : Bool) || isdigit c) = false := by
  have h1 : c ≠ '.' := isspace_ne c '.' h (by decide)
  simp [h1, ws_not_digit c h]

theorem fmtEquiv_refl : ∀ l : List Char, FmtEquiv l l
  | [] => FmtEquiv.nil
  | c :: t => FmtEquiv.cons_eq c (fmtEquiv_refl t)

theorem fmtEquiv_dropWhile (l1 l2 : List Char) (h : FmtEquiv l1 l2) :
    FmtEquiv (l1.dropWhile (fun c => c = '.' || isdigit c))
      (l2.dropWhile (fun c => c = '.' || isdigit c)) := by
  induction h with
  | nil => exact FmtEquiv.nil
  | cons_eq c htl ih =>
    rw [List.dropWhile_cons, List.dropWhile_cons]
    by_cases hp : ((c = '.' : Bool) || isdigit c) = true
    · rw [if_pos hp, if_pos hp]
      exact ih
    · rw [if_neg hp, if_neg hp]
      exact FmtEquiv.cons_eq c htl
  | cons_ws hw1 hw2 htl ih =>
    rw [List.dropWhile_cons, List.dropWhile_cons]
    rw [if_neg (by simp [ws_not_dotdigit _ hw1]), if_neg (by simp [ws_not_dotdigit _ hw2])]
    exact FmtEquiv.cons_ws hw1 hw2 htl

theorem fmtEquiv_takeWhile_digits (l1 l2 : List Char) (h : FmtEquiv l1 l2) :
    l1.takeWhile isdigit = l2.takeWhile isdigit := by
  induction h with
  | nil => rfl
  | cons_eq c htl ih =>
    rw [List.takeWhile_cons, List.takeWhile_cons, ih]
  | cons_ws hw1 hw2 htl ih =>
    rw [List.takeWhile_cons, List.takeWhile_cons]
    rw [if_neg (by simp [ws_not_digit _ hw1]), if_neg (by simp [ws_not_digit _ hw2])]

theorem fmtEquiv_drop (l1 l2 : List Char) (h : FmtEquiv l1 l2) :
    ∀ n, FmtEquiv (l1.drop n) (l2.drop n) := by
  induction h with
  | nil => intro n; rw [List.drop_nil]; exact FmtEquiv.nil
  | cons_eq c htl ih =>
    intro n
    cases n with
    | zero => exact FmtEquiv.cons_eq c htl
    | succ m => rw [List.drop_succ_cons, List.drop_succ_cons]; exact ih m
  | cons_ws hw1 hw2 htl ih =>
    intro n
    cases n with
    | zero => exact FmtEquiv.cons_ws hw1 hw2 htl
    | succ m => rw [List.drop_succ_cons, List.drop_succ_cons]; exact ih m

theorem lengthMod_equiv (r1 r2 : List Char) (h : FmtEquiv r1 r2) :
    (lengthMod r1).1 = (lengthMod r2).1 ∧ (lengthMod r1).2.1 = (lengthMod r2).2.1 ∧
    (lengthMod r1).2.2.1 = (lengthMod r2).2.2.1 ∧
    FmtEquiv (lengthMod r1).2.2.2 (lengthMod r2).2.2.2 := by
  cases h with
  | nil => exact ⟨rfl, rfl, rfl, FmtEquiv.nil⟩
  | cons_eq c htl =>
    simp only [lengthMod]
    by_cases h1 : c = 'h'
    · rw [if_pos h1, if_pos h1]
      exact ⟨rfl, rfl, rfl, htl⟩
    rw [if_neg h1, if_neg h1]
    by_cases h2 : c = 'l'
    · rw [if_pos h2, if_pos h2]
      exact ⟨rfl, rfl, rfl, htl⟩
    rw [if_neg h2, if_neg h2]
    by_cases h3 : c = 'L'
    · rw [if_pos h3, if_pos h3]
      exact ⟨rfl, rfl, rfl, htl⟩
    rw [if_neg h3, if_neg h3]
    exact ⟨rfl, rfl, rfl, FmtEquiv.cons_eq c htl⟩
  | cons_ws hw1 hw2 htl =>
    rename_i c1 c2 l1 l2
    simp only [lengthMod]
    rw [if_neg (isspace_ne c1 'h' hw1 (by decide)), if_neg (isspace_ne c2 'h' hw2 (by decide)),
      if_neg (isspace_ne c1 'l' hw1 (by decide)), if_neg (isspace_ne c2 'l' hw2 (by decide)),
      if_neg (isspace_ne c1 'L' hw1 (by decide)), if_neg (isspace_ne c2 'L' hw2 (by decide))]
    exact ⟨rfl, rfl, rfl, FmtEquiv.cons_ws hw1 hw2 htl⟩

theorem parseSpec_equiv (r1 r2 : List Char) (h : FmtEquiv r1 r2) :
    (parseSpec r1).isShort = (parseSpec r2).isShort ∧
    (parseSpec r1).isLong = (parseSpec r2).isLong ∧
    (parseSpec r1).isLongDouble = (parseSpec r2).isLongDouble ∧
    (parseSpec r1).strWidth = (parseSpec r2).strWidth ∧
    ((parseSpec r1).rest = none ∧ (parseSpec r2).rest = none ∨
      (∃ sp t1 t2, (parseSpec r1).rest = some (sp, t1) ∧ (parseSpec r2).rest = some (sp, t2) ∧
        FmtEquiv t1 t2) ∨
      (∃ sp1 sp2 t1 t2, (parseSpec r1).rest = some (sp1, t1) ∧
        (parseSpec r2).rest = some (sp2, t2) ∧
        isspace sp1 = true ∧ isspace sp2 = true ∧ FmtEquiv t1 t2)) := by
  have hdw := fmtEquiv_dropWhile r1 r2 h
  obtain ⟨e1, e2, e3, h4⟩ := lengthMod_equiv _ _ hdw
  have hst : FmtEquiv (specTail r1) (specTail r2) := h4
  have e5 : widthDigits r1 = widthDigits r2 := by
    simp only [widthDigits]
    rw [fmtEquiv_takeWhile_digits _ _ hst]
  have h7 : FmtEquiv ((specTail r1).drop (widthDigits r1).length)
      ((specTail r2).drop (widthDigits r2).length) := by
    rw [e5]
    exact fmtEquiv_drop _ _ hst _
  simp only [parseSpec]
  generalize hA : (specTail r1).drop (widthDigits r1).length = A at h7 ⊢
  generalize hB : (specTail r2).drop (widthDigits r2).length = B at h7 ⊢
  cases h7 with
  | nil =>
    exact ⟨e1, e2, e3, by rw [e5], Or.inl ⟨rfl, rfl⟩⟩
  | cons_eq c htl =>
    exact ⟨e1, e2, e3, by rw [e5], Or.inr (Or.inl ⟨c, _, _, rfl, rfl, htl⟩)⟩
  | cons_ws hw1 hw2 htl =>
    exact ⟨e1, e2, e3, by rw [e5], Or.inr (Or.inr ⟨_, _, _, _, rfl, rfl, hw1, hw2, htl⟩)⟩


theorem specAction_ws (buf : List Char) (pos : Nat) (sp : Char) (a b c : Bool) (w : Nat)
    (h : isspace sp = true) : specAction buf pos sp a b c w = (none, pos) := by
  simp only [specAction]
  rw [if_neg (isspace_ne sp 'd' h (by decide)),
    if_neg (isspace_ne sp 'u' h (by decide)),
    if_neg (isspace_ne sp 'x' h (by decide)),
    if_neg (by rintro (rfl | rfl | rfl) <;> exact absurd h (by decide) :
      ¬(sp = 'f' ∨ sp = 'g' ∨ sp = 'e')),
    if_neg (isspace_ne sp 'c' h (by decide)),
    if_neg (isspace_ne sp 's' h (by decide))]

theorem scanLoopAux_equiv (buf : List Char) :
    ∀ fuel f1 f2 st, FmtEquiv f1 f2 →
      scanLoopAux buf fuel f1 st = scanLoopAux buf fuel f2 st := by
  intro fuel
  induction fuel with
  | zero => intro f1 f2 st h; rfl
  | succ n ih =>
    intro f1 f2 st h
    cases h with
    | nil => rfl
    | cons_eq c htl =>
      rename_i l1 l2
      simp only [scanLoopAux]
      by_cases h1 : c = '%'
      · rw [if_pos h1, if_pos h1]
        obtain ⟨e1, e2, e3, e4, hrest⟩ := parseSpec_equiv l1 l2 htl
        rcases hrest with ⟨hn1, hn2⟩ |
          ⟨sp, t1, t2, hs1, hs2, htt⟩ |
          ⟨sp1, sp2, t1, t2, hs1, hs2, hw1, hw2, htt⟩
        · rw [hn1, hn2]
        · rw [hs1, hs2]
          dsimp only
          rw [e1, e2, e3, e4]
          rcases hac : specAction buf st.pos sp (parseSpec l2).isShort (parseSpec l2).isLong
            (parseSpec l2).isLongDouble (parseSpec l2).strWidth with ⟨o, p⟩
          cases o with
          | some v => exact ih t1 t2 _ htt
          | none => rfl
        · rw [hs1, hs2]
          dsimp only
          rw [specAction_ws buf st.pos sp1 _ _ _ _ hw1,
            specAction_ws buf st.pos sp2 _ _ _ _ hw2]
      · rw [if_neg h1, if_neg h1]
        by_cases h2 : isspace c = true
        · rw [if_pos h2, if_pos h2]
          exact ih l1 l2 _ htl
        rw [if_neg h2, if_neg h2]
        by_cases h3 : c = '\n'
        · rw [if_pos h3, if_pos h3]
          exact ih l1 l2 _ htl
        rw [if_neg h3, if_neg h3]
        by_cases h4 : ms_eof buf (ms_skip_whitespace buf st.pos) = true
        · rw [if_pos h4, if_pos h4]
        rw [if_neg h4, if_neg h4]
        by_cases h5 : (ms_getc buf (ms_skip_whitespace buf st.pos)).1 = c
        · rw [if_pos h5, if_pos h5]
          exact ih l1 l2 _ htl
        rw [if_neg h5, if_neg h5]
    | cons_ws hw1 hw2 htl =>
      rename_i c1 c2 l1 l2
      simp only [scanLoopAux]
      rw [if_neg (isspace_ne c1 '%' hw1 (by decide)),
        if_neg (isspace_ne c2 '%' hw2 (by decide)),
        if_pos hw1, if_pos hw2]
      exact ih l1 l2 _ htl


theorem readIntegerToken_sign_fails (buf : List Char) (pos : Nat) (base : Nat)
    (hb : base = 10 ∨ base = 16)
    (hs : ms_peek buf (ms_skip_whitespace buf pos) = '+' ∨
      ms_peek buf (ms_skip_whitespace buf pos) = '-') :
    readIntegerToken buf pos false base 128 = (false, ms_skip_whitespace buf pos, []) := by
  have hlt : ms_skip_whitespace buf pos < buf.length := by
    by_contra hge
    push_neg at hge
    have hz : ms_peek buf (ms_skip_whitespace buf pos) = Char.ofNat 0 := by
      simp [ms_peek, ms_eof, hge]
    rcases hs with h | h <;> rw [h] at hz <;> exact absurd hz (by decide)
  have he : ms_eof buf (ms_skip_whitespace buf pos) = false :=
    (ms_eof_false_iff buf _).mpr hlt
  obtain ⟨k, hk⟩ : ∃ k, buf.length - ms_skip_whitespace buf pos = k + 1 :=
    ⟨buf.length - ms_skip_whitespace buf pos - 1, by omega⟩
  have d1 : isdigit '+' = false := by decide
  have d2 : isdigit '-' = false := by decide
  have d3 : isxdigit '+' = false := by decide
  have d4 : isxdigit '-' = false := by decide
  rcases hb with rfl | rfl <;> rcases hs with h | h <;>
    simp [readIntegerToken, hk, intLoopAux, he, h, d1, d2, d3, d4]

theorem floatLoopAux_stop (buf : List Char) (bufSize fuel pos : Nat) (tok : List Char)
    (g sd : Bool)
    (hd : isdigit (ms_peek buf pos) = false)
    (hdot : ms_peek buf pos ≠ '.')
    (he : ms_peek buf pos ≠ 'e')
    (hE : ms_peek buf pos ≠ 'E') :
    floatLoopAux buf bufSize fuel pos tok g false sd = (g, pos, tok) := by
  cases fuel with
  | zero => rfl
  | succ n =>
    simp only [floatLoopAux]
    by_cases hms : ms_eof buf pos = true
    · rw [if_pos hms]
    rw [if_neg hms]
    rw [if_neg (by simp [hd])]
    rw [if_neg (by simp [hdot])]
    rw [if_neg (by simp [he, hE])]
    rw [if_neg (by simp)]

theorem readFloatToken_lone (buf : List Char) (pos : Nat)
    (h1 : ms_peek buf (ms_skip_whitespace buf pos) = '+' ∨
      ms_peek buf (ms_skip_whitespace buf pos) = '-' ∨
      ms_peek buf (ms_skip_whitespace buf pos) = '.')
    (h2 : isdigit (ms_peek buf (ms_skip_whitespace buf pos + 1)) = false)
    (h3 : ms_peek buf (ms_skip_whitespace buf pos + 1) ≠ '.')
    (h4 : ms_peek buf (ms_skip_whitespace buf pos + 1) ≠ 'e')
    (h5 : ms_peek buf (ms_skip_whitespace buf pos + 1) ≠ 'E') :
    readFloatToken buf pos 256 =
      (true, ms_skip_whitespace buf pos + 1, [ms_peek buf (ms_skip_whitespace buf pos)]) := by
  have hlt : ms_skip_whitespace buf pos < buf.length := by
    by_contra hge
    push_neg at hge
    have hz : ms_peek buf (ms_skip_whitespace buf pos) = Char.ofNat 0 := by
      simp [ms_peek, ms_eof, hge]
    rcases h1 with h | h | h <;> rw [h] at hz <;> exact absurd hz (by decide)
  have he : ms_eof buf (ms_skip_whitespace buf pos) = false :=
    (ms_eof_false_iff buf _).mpr hlt
  have hgetc : (ms_getc buf (ms_skip_whitespace buf pos)).2 =
      ms_skip_whitespace buf pos + 1 := by
    simp [ms_getc, he]
  rcases h1 with h | h | h
  · -- lone '+': taken by the sign step, then the loop stops at once
    simp only [readFloatToken, if_neg (by omega : ¬(256 < 2)), h, hgetc]
    rw [if_pos (by decide)]
    exact floatLoopAux_stop buf 256 _ _ _ true false h2 h3 h4 h5
  · simp only [readFloatToken, if_neg (by omega : ¬(256 < 2)), h, hgetc]
    rw [if_pos (by decide)]
    exact floatLoopAux_stop buf 256 _ _ _ true false h2 h3 h4 h5
  · -- lone '.': not a sign; the loop consumes it (setting gotAny) and stops
    obtain ⟨k, hk⟩ : ∃ k, buf.length - ms_skip_whitespace buf pos = k + 1 :=
      ⟨buf.length - ms_skip_whitespace buf pos - 1, by omega⟩
    simp only [readFloatToken, if_neg (by omega : ¬(256 < 2))]
    rw [h]
    rw [if_neg (by decide)]
    rw [hk]
    simp only [floatLoopAux, he, Bool.false_eq_true, if_false]
    rw [h]
    rw [if_neg (by decide : ¬(isdigit '.' = true))]
    rw [if_pos (by decide)]
    rw [hgetc]
    rw [show pushTok [] 256 '.' = ['.'] from by simp [pushTok]]
    exact floatLoopAux_stop buf 256 _ _ _ true true h2 h3 h4 h5



/-- C1: calling `fast_fscanf_mem` at offset 0 with the sample 16-directive format
on the sample record returns match count 16, and the output slots receive
`0x1a` for the first hex directive, `5` for the bracketed `%hd`, `0x2b3` for
the `%lx`, and `"tok"` for the `%s` (the full write list and the final offset
55 are pinned down as well). -/
theorem scenario_sixteen_directives :
    fast_fscanf_mem c1input 0 c1format =
      ⟨55, 16,
       [ScanValue.uintV 0x1a, ScanValue.shortV 5, ScanValue.shortV 3, ScanValue.ushortV 7,
        ScanValue.intV 42, ScanValue.uintV 0xff, ScanValue.ulongV 0x2b3,
        ScanValue.floatV "1.5".data, ScanValue.longdoubleV "2.25".data,
        ScanValue.strV "tok".data, ScanValue.shortV 1, ScanValue.shortV 2,
        ScanValue.shortV 2024, ScanValue.shortV 9, ScanValue.shortV 30,
        ScanValue.shortV 0]⟩ := by
  decide

/-- C2 (claim refuted at this input — the code contradicts the rollback the
spec and `ms_ungetc`'s own comments describe): on buffer `"b"` with format
`"a"`, the literal `'a'` fails against `'b'`, yet the reported offset is 1,
not 0: the mismatching character IS consumed, because `ms_ungetc`'s decrement
condition `ptr > end - (end - ptr)` is `ptr > ptr` and never fires. -/
theorem literal_mismatch_consumed :
    fast_fscanf_mem "b".data 0 "a".data = ⟨1, 0, []⟩ ∧ ms_ungetc "b".data 1 = 1 := by
  decide

/-- C3: the value returned by `fast_fscanf_mem` equals the number of
conversion directives that were matched and converted — exactly one
output-slot write is performed per counted directive, so the match count
equals the length of the write list.  (The returned offset is, by
construction of the embedding, the cursor position at which the walk halted,
mirroring the `*offset = ptr - buffer` write-back.) -/
theorem return_counts_converted_directives (buf : List Char) (off : Nat) (fmt : List Char) :
    (fast_fscanf_mem buf off fmt).matched = (fast_fscanf_mem buf off fmt).writes.length := by
  obtain ⟨ws, hw, hm⟩ := scanLoopAux_frame buf fmt.length fmt ⟨off, 0, []⟩
  unfold fast_fscanf_mem
  rw [hw, hm]
  simp

/-- C4: when the next non-whitespace character is `'+'` or `'-'`, a `%u`- or
`%x`-family directive (any length modifier) fails: the integer scanner is
called with sign permission disabled, consumes nothing beyond the skipped
whitespace, captures an empty token, and the directive reports no value
(the cursor sits exactly at the sign character). -/
theorem unsigned_hex_sign_mismatch (buf : List Char) (pos : Nat) (spec : Char)
    (a b c : Bool) (w : Nat) (hspec : spec = 'u' ∨ spec = 'x')
    (hs : ms_peek buf (ms_skip_whitespace buf pos) = '+' ∨
      ms_peek buf (ms_skip_whitespace buf pos) = '-') :
    specAction buf pos spec a b c w = (none, ms_skip_whitespace buf pos) ∧
    readIntegerToken buf pos false (if spec = 'u' then 10 else 16) 128 =
      (false, ms_skip_whitespace buf pos, []) := by
  rcases hspec with rfl | rfl
  · have h10 := readIntegerToken_sign_fails buf pos 10 (Or.inl rfl) hs
    refine ⟨?_, by simpa using h10⟩
    simp only [specAction]
    rw [if_neg (by decide : ¬(('u' : Char) = 'd')), if_pos (by simp), h10]
  · have h16 := readIntegerToken_sign_fails buf pos 16 (Or.inr rfl) hs
    refine ⟨?_, by simpa using h16⟩
    simp only [specAction]
    rw [if_neg (by decide : ¬(('x' : Char) = 'd')),
      if_neg (by decide : ¬(('x' : Char) = 'u')), if_pos (by simp), h16]

theorem unsigned_hex_sign_mismatch_witness :
    specAction "+5".data 0 'u' false false false 0 = (none, 0) ∧
    readIntegerToken "+5".data 0 false (if ('u' : Char) = 'u' then 10 else 16) 128 =
      (false, 0, []) :=
  unsigned_hex_sign_mismatch "+5".data 0 'u' false false false 0 (Or.inl rfl) (by decide)

/-- C5 counterexample: the claim says the float scanner fails on a lone sign
and on a lone `'.'`; in fact `readFloatToken` reports SUCCESS on both (the
sign branch and the dot branch each set `gotAny`). -/
theorem float_lone_sign_reports_success :
    (readFloatToken "-".data 0 256).1 = true ∧ (readFloatToken ".".data 0 256).1 = true := by
  decide

/-- C5 amended: the float token scanner reports success whenever it captured
at least one character — including a lone sign or a lone decimal point.  On
input whose next non-whitespace character is `'+'`, `'-'` or `'.'` followed
by no further float character, the scanner consumes that one character and
returns true; the numeric conversion then rejects the token, so the
float directive itself still fails to match and writes nothing. -/
theorem float_lone_capture_directive_fails (buf : List Char) (pos : Nat)
    (a b c : Bool) (w : Nat)
    (h1 : ms_peek buf (ms_skip_whitespace buf pos) = '+' ∨
      ms_peek buf (ms_skip_whitespace buf pos) = '-' ∨
      ms_peek buf (ms_skip_whitespace buf pos) = '.')
    (h2 : isdigit (ms_peek buf (ms_skip_whitespace buf pos + 1)) = false)
    (h3 : ms_peek buf (ms_skip_whitespace buf pos + 1) ≠ '.')
    (h4 : ms_peek buf (ms_skip_whitespace buf pos + 1) ≠ 'e')
    (h5 : ms_peek buf (ms_skip_whitespace buf pos + 1) ≠ 'E') :
    readFloatToken buf pos 256 =
      (true, ms_skip_whitespace buf pos + 1, [ms_peek buf (ms_skip_whitespace buf pos)]) ∧
    specAction buf pos 'f' a b c w = (none, ms_skip_whitespace buf pos + 1) := by
  have hf := readFloatToken_lone buf pos h1 h2 h3 h4 h5
  refine ⟨hf, ?_⟩
  simp only [specAction]
  rw [if_neg (by decide : ¬(('f' : Char) = 'd')), if_neg (by decide : ¬(('f' : Char) = 'u')),
    if_neg (by decide : ¬(('f' : Char) = 'x')), if_pos (by simp), hf]
  have hacc : strtodAccepts [ms_peek buf (ms_skip_whitespace buf pos)] = false := by
    rcases h1 with h | h | h <;> rw [h] <;> decide
  simp [hacc]

theorem float_lone_capture_directive_fails_witness :
    readFloatToken "-".data 0 256 = (true, 1, ['-']) ∧
    specAction "-".data 0 'f' false false false 0 = (none, 1) :=
  float_lone_capture_directive_fails "-".data 0 false false false 0 (by decide) (by decide)
    (by decide) (by decide) (by decide)

/-- C6: a string read with width cap `w` applied to a whitespace-delimited
token longer than `w - 1` stores only the first `w - 1` characters, while
the cursor still advances past the whole untruncated token. -/
theorem string_width_truncation (buf : List Char) (pos : Nat) (w : Int) (hw : 0 < w)
    (hlong : w - 1 <
      (((buf.drop (ms_skip_whitespace buf pos)).takeWhile (fun c => !isspace c)).length : Int)) :
    (readString buf pos w).2.2 =
      ((buf.drop (ms_skip_whitespace buf pos)).takeWhile (fun c => !isspace c)).take
        (w - 1).toNat ∧
    (readString buf pos w).2.1 =
      ms_skip_whitespace buf pos +
        ((buf.drop (ms_skip_whitespace buf pos)).takeWhile (fun c => !isspace c)).length := by
  have hfuel : ((buf.drop (ms_skip_whitespace buf pos)).takeWhile
      (fun c => !isspace c)).length ≤ buf.length - ms_skip_whitespace buf pos := by
    have h1 := (List.takeWhile_prefix (l := buf.drop (ms_skip_whitespace buf pos))
      (fun c => !isspace c)).length_le
    simpa [List.length_drop] using h1
  have hnw : ¬ (w ≤ 0) := by omega
  simp only [readString, if_neg hnw]
  rw [stringLoopAux_spec buf w _ _ 0 [] hfuel]
  constructor
  · simp
  · rfl

theorem string_width_truncation_witness :
    (readString "hello".data 0 3).2.2 = ['h', 'e'] ∧ (readString "hello".data 0 3).2.1 = 5 :=
  string_width_truncation "hello".data 0 3 (by decide) (by decide)

/-- C7: with the offset at the buffer length (which subsumes a zero-length
buffer), `fast_fscanf_mem` returns match count 0 and leaves the state
untouched for every format; and from any in-range offset, the cursor never
leaves the buffer: the returned offset is at most the buffer length.  (All
buffer reads in the embedding go through the bounds-checked `ms_peek` /
`ms_getc`, so no character past the supplied length is examined.) -/
theorem cursor_bounded_and_eof_no_match (buf fmt : List Char) (off : Nat) :
    (off = buf.length → fast_fscanf_mem buf off fmt = ⟨off, 0, []⟩) ∧
    (off ≤ buf.length → (fast_fscanf_mem buf off fmt).pos ≤ buf.length) := by
  constructor
  · rintro rfl
    exact scanLoopAux_at_end buf fmt.length fmt 0 []
  · intro h
    exact scanLoopAux_pos_le buf fmt.length fmt ⟨off, 0, []⟩ h

theorem cursor_bounded_and_eof_no_match_witness :
    fast_fscanf_mem [] 0 ['%', 'd'] = ⟨0, 0, []⟩ ∧
    (fast_fscanf_mem [] 0 ['%', 'd']).pos ≤ ([] : List Char).length :=
  ⟨(cursor_bounded_and_eof_no_match [] ['%', 'd'] 0).1 rfl,
   (cursor_bounded_and_eof_no_match [] ['%', 'd'] 0).2 (Nat.le_refl 0)⟩

/-- C8: output writes are append-only and one-per-match: from any interpreter
state, the writes already performed are preserved as a prefix of the final
write list, and the match count grows by exactly the number of new writes —
a failing directive appends nothing and earlier slots keep their values. -/
theorem writes_append_only_per_match (buf : List Char) (fuel : Nat) (fmt : List Char)
    (st : ScanState) :
    ∃ ws, (scanLoopAux buf fuel fmt st).writes = st.writes ++ ws ∧
      (scanLoopAux buf fuel fmt st).matched = st.matched + ws.length :=
  scanLoopAux_frame buf fuel fmt st

/-- C9: `ms_ungetc` never moves the cursor (its decrement condition
`ptr > end - (end - ptr)` is never true for any in-range position), and
consequently the offset returned by `fast_fscanf_mem` is always at least the
offset passed in: the cursor is monotone non-decreasing. -/
theorem cursor_never_moves_backward :
    (∀ (buf : List Char) (pos : Nat), pos ≤ buf.length → ms_ungetc buf pos = pos) ∧
    (∀ (buf : List Char) (off : Nat) (fmt : List Char),
      off ≤ (fast_fscanf_mem buf off fmt).pos) := by
  refine ⟨fun buf pos h => ms_ungetc_eq buf pos h, ?_⟩
  intro buf off fmt
  exact scanLoopAux_pos_mono buf fmt.length fmt ⟨off, 0, []⟩

theorem cursor_never_moves_backward_witness :
    ms_ungetc ['a'] 1 = 1 ∧ 0 ≤ (fast_fscanf_mem ['a'] 0 ['a']).pos :=
  ⟨cursor_never_moves_backward.1 ['a'] 1 (by decide),
   cursor_never_moves_backward.2 ['a'] 0 ['a']⟩

/-- C10: a newline in the format string is handled by the whitespace-class
branch (`isspace '\n'` holds, so the dedicated strict-newline branch is
unreachable): replacing a format `'\n'` by `' '` changes nothing — match
count, final offset and output writes are identical, so a format newline
skips whitespace, never fails, and never requires an actual newline. -/
theorem format_newline_equals_space (buf : List Char) (off : Nat) (pre post : List Char) :
    fast_fscanf_mem buf off (pre ++ '\n' :: post) =
      fast_fscanf_mem buf off (pre ++ ' ' :: post) := by
  have he : FmtEquiv (pre ++ '\n' :: post) (pre ++ ' ' :: post) := by
    induction pre with
    | nil => exact FmtEquiv.cons_ws (by decide) (by decide) (fmtEquiv_refl post)
    | cons c t ih => exact FmtEquiv.cons_eq c ih
  have hlen : (pre ++ '\n' :: post).length = (pre ++ ' ' :: post).length := by simp
  unfold fast_fscanf_mem
  rw [hlen]
  exact scanLoopAux_equiv buf _ _ _ ⟨off, 0, []⟩ he

end FScanf
